import Mathlib

/-!
Verification of the LangJS translation engine (src/langjs.js).

The JavaScript class is shallowly embedded: the dictionary tree is a tagged
union `JValue`, the mutable instance fields (`currentLanguage`,
`languageDict`, `translationCache`, `observers`) form the record `LState`,
and each method becomes a Lean function threading that state explicitly.
External collaborators (fetch, localStorage, the DOM document) are passed in
as explicit parameters or oracles.
-/

/-- A JSON-like dictionary tree: leaves are strings, internal nodes are
groups, mirroring the language files consumed by `loadLanguageFile`.
Groups are association lists (JSON objects keep string keys). -/
inductive JValue where
  | str : String → JValue
  | obj : List (String × JValue) → JValue

/-- Word characters of the JavaScript regex class `\w`, namely
`[A-Za-z0-9_]` (`Char.isAlpha`/`Char.isDigit` are exactly the ASCII
ranges). -/
def isWordChar (c : Char) : Bool :=
  c.isAlpha || c.isDigit || c = '_'

/-- One scan step of `text.replace(/\x7b(\w+)\x7d/g, ...)` from
`interpolate` (src/langjs.js line 206), written as a left-to-right state
machine over the character list.  The second argument is `none` outside a
candidate token and `some acc` when the characters `acc.reverse` (all word
characters) have been read after an opening brace.  A completed token
`\x7b name \x7d` is replaced by `params[name]` when present and kept
literally otherwise; replacement text is emitted verbatim, never
rescanned, exactly like `String.prototype.replace`. -/
def interpGoA (params : List (String × String)) : List Char → Option (List Char) → List Char
  | [], none => []
  | [], some acc => '{' :: acc.reverse
  | c :: rest, none =>
      if c = '{' then interpGoA params rest (some [])
      else c :: interpGoA params rest none
  | c :: rest, some acc =>
      if isWordChar c then interpGoA params rest (some (c :: acc))
      else if c = '}' then
        match acc with
        | [] => '{' :: '}' :: interpGoA params rest none
        | _ :: _ =>
          (match List.lookup (String.mk acc.reverse) params with
           | some v => v.data
           | none => '{' :: (acc.reverse ++ ['}'])) ++ interpGoA params rest none
      else if c = '{' then '{' :: (acc.reverse ++ interpGoA params rest (some []))
      else '{' :: (acc.reverse ++ (c :: interpGoA params rest none))

/-- `interpolate(text, params)` from src/langjs.js lines 205-209. -/
def interpolate (text : String) (params : List (String × String)) : String :=
  String.mk (interpGoA params text.data none)

/-- A segment of the decomposition of an interpolation source text:
either a literal character or a complete placeholder token `\x7b name \x7d`. -/
inductive Seg where
  | lit : Char → Seg
  | tok : String → Seg

/-- Decomposition of a text into literal characters and placeholder
tokens, following the very same scan as `interpGoA` but recording the
structure instead of substituting. -/
def tokenizeA : List Char → Option (List Char) → List Seg
  | [], none => []
  | [], some acc => Seg.lit '{' :: acc.reverse.map Seg.lit
  | c :: rest, none =>
      if c = '{' then tokenizeA rest (some [])
      else Seg.lit c :: tokenizeA rest none
  | c :: rest, some acc =>
      if isWordChar c then tokenizeA rest (some (c :: acc))
      else if c = '}' then
        match acc with
        | [] => Seg.lit '{' :: Seg.lit '}' :: tokenizeA rest none
        | _ :: _ => Seg.tok (String.mk acc.reverse) :: tokenizeA rest none
      else if c = '{' then Seg.lit '{' :: (acc.reverse.map Seg.lit ++ tokenizeA rest (some []))
      else Seg.lit '{' :: (acc.reverse.map Seg.lit ++ (Seg.lit c :: tokenizeA rest none))

/-- The decomposition of a full text. -/
def tokenize (l : List Char) : List Seg := tokenizeA l none

/-- Render a decomposition back to text with every token left literal. -/
def renderRaw : List Seg → List Char
  | [] => []
  | Seg.lit c :: s => c :: renderRaw s
  | Seg.tok n :: s => '{' :: (n.data ++ ('}' :: renderRaw s))

/-- Render a decomposition substituting each token whose name is bound in
`params` by its value (emitted verbatim, not rescanned) and keeping each
unbound token literally. -/
def renderSub (params : List (String × String)) : List Seg → List Char
  | [] => []
  | Seg.lit c :: s => c :: renderSub params s
  | Seg.tok n :: s =>
      (match List.lookup n params with
       | some v => v.data
       | none => '{' :: (n.data ++ ['}'])) ++ renderSub params s

example : interpolate "Hello {name}" [("name", "John")] = "Hello John" := by decide
example : interpolate "Hi {missing}" [] = "Hi {missing}" := by decide
example : interpolate "{a}" [("a", "{b}"), ("b", "X")] = "{b}" := by decide

/-- The JavaScript `key.split('.')` specialised to the dot separator:
splits on every dot, keeping empty segments (`"".split('.')` is `[""]`). -/
def splitAux (acc : List Char) : List Char → List String
  | [] => [String.mk acc.reverse]
  | c :: rest =>
      if c = '.' then String.mk acc.reverse :: splitAux [] rest
      else splitAux (c :: acc) rest

/-- `key.split('.')` from src/langjs.js line 179. -/
def splitKey (key : String) : List String := splitAux [] key.data

example : splitKey "a.b" = ["a", "b"] := by decide
example : splitKey "" = [""] := by decide
example : splitKey "a..b" = ["a", "", "b"] := by decide

/-- The walk of `get` (src/langjs.js lines 178-189): descend one segment
at a time; `none` is the miss case (the loop body's `else` branch:
current node not an object or segment not a key of it). -/
def lookupSegs : JValue → List String → Option JValue
  | v, [] => some v
  | JValue.obj fields, k :: ks =>
      match List.lookup k fields with
      | some v => lookupSegs v ks
      | none => none
  | JValue.str _, _ :: _ => none

/-- The value computed by the walk of `get`: on any miss the loop sets
`value = key` (the whole original key string) and breaks. -/
def getValue (dict : JValue) (key : String) : JValue :=
  match lookupSegs dict (splitKey key) with
  | some v => v
  | none => JValue.str key

/-- The value `get` computes before caching (src/langjs.js lines 178-194):
the walk result, interpolated only when it is a string and `params` is
non-empty (`typeof value === 'string' && Object.keys(params).length > 0`). -/
def computeGet (dict : JValue) (key : String) (params : List (String × String)) : JValue :=
  match getValue dict key with
  | JValue.str s => if params.isEmpty then JValue.str s else JValue.str (interpolate s params)
  | v => v

/-- JSON string escaping as performed by `JSON.stringify` on the common
escapes (quote, backslash, newline, carriage return, tab); other
characters are emitted unchanged.  Only used to build cache keys, whose
exact spelling no claim depends on. -/
def escChar (c : Char) : List Char :=
  if c = '"' then ['\\', '"']
  else if c = '\\' then ['\\', '\\']
  else if c = '\n' then ['\\', 'n']
  else if c = '\r' then ['\\', 'r']
  else if c = '\t' then ['\\', 't']
  else [c]

/-- A JSON string literal for `s`. -/
def quoteJson (s : String) : String :=
  String.mk ('"' :: s.data.foldr (fun c acc => escChar c ++ acc) ['"'])

/-- Comma-join of the members of a stringified object. -/
def joinParts : List String → String
  | [] => ""
  | [s] => s
  | s :: rest => s ++ "," ++ joinParts rest

/-- `JSON.stringify(params)` for a parameter map with string values, in
insertion order, as used for the cache key in src/langjs.js line 173. -/
def stringifyParams (ps : List (String × String)) : String :=
  "\x7b" ++ joinParts (ps.map fun kv => quoteJson kv.1 ++ ":" ++ quoteJson kv.2) ++ "\x7d"

/-- The cache key `` `${key}_${JSON.stringify(params)}` `` of `get`. -/
def cacheKey (key : String) (ps : List (String × String)) : String :=
  key ++ "_" ++ stringifyParams ps

example : stringifyParams [] = "\x7b\x7d" := by decide

/-- The mutable fields of a `LangJS` instance that the translation engine
reads and writes: `currentLanguage`, `languageDict`, `translationCache`
(a JS `Map`, embedded as an association list whose `set` prepends — the
first binding wins on lookup, matching `Map.get` after `Map.set`), and
the registered `MutationObserver`s (by opaque identifier). -/
structure LState where
  currentLanguage : Option String
  languageDict : JValue
  translationCache : List (String × JValue)
  observers : List Nat

/-- `get(key, params)` from src/langjs.js lines 171-199, threading the
instance state.  Returns the translation value, the updated state, and
whether an underlying dictionary walk was performed (`false` exactly when
the call was served from the cache). -/
def getM (s : LState) (key : String) (params : List (String × String)) :
    JValue × LState × Bool :=
  let ck := cacheKey key params
  match List.lookup ck s.translationCache with
  | some v => (v, s, false)
  | none =>
      let v := computeGet s.languageDict key params
      (v, { s with translationCache := (ck, v) :: s.translationCache }, true)

/-- The sequence of `get(key)` calls (empty params) issued by a
`translatePage` run, given the marker keys of the document in pass order.
The document itself is an external collaborator of the language core, so
it enters as the list of keys its marked elements carry. -/
def runGets (s : LState) (ks : List String) : LState :=
  ks.foldl (fun s k => (getM s k []).2.1) s

/-- `destroy()` from src/langjs.js lines 346-351: every registered
observer is disconnected (the returned list records the `disconnect()`
calls, in order), the observer list is emptied and the cache cleared;
nothing else is touched. -/
def destroy (s : LState) : LState × List Nat :=
  ({ s with observers := [], translationCache := [] }, s.observers)

/-- The configuration fields consulted by language selection and
activation (src/langjs.js lines 9-21). -/
structure Config where
  defaultLanguage : String
  fallbackLanguage : String
  detectBrowser : Bool

/-- The truthiness test `savedLang && this.availableLanguages.includes(savedLang)`
of `detectLanguage` step 1: a `null` or empty stored string is falsy. -/
def storedOk (available : List String) (stored : Option String) : Bool :=
  match stored with
  | some s => s ≠ "" && available.contains s
  | none => false

/-- ASCII lowercasing, as `String.prototype.toLowerCase` acts on the
locale strings involved here. -/
def lowerStr (s : String) : String := String.mk (s.data.map Char.toLower)

/-- Leading-match test on character lists: `charsLE p l` holds when `p`
is an initial run of `l` (the semantics of `String.prototype.startsWith`). -/
def charsLE : List Char → List Char → Bool
  | [], _ => true
  | _ :: _, [] => false
  | a :: as, b :: bs => a = b && charsLE as bs

/-- `browserLang.startsWith(lang)` where `browserLang` has already been
lowercased (src/langjs.js line 58).  Note the tag `lang` itself is NOT
lowercased by the source. -/
def jsStartsWith (s pre : String) : Bool := charsLE pre.data s.data

/-- `detectLanguage()` from src/langjs.js lines 47-66.  The stored
preference and the browser locale (`navigator.language`) are external
collaborators passed as arguments. -/
def detectLanguage (available : List String) (cfg : Config)
    (stored : Option String) (browserLang : String) : String :=
  if storedOk available stored then
    match stored with
    | some s => s
    | none => cfg.defaultLanguage
  else if cfg.detectBrowser then
    match available.find? (fun lang => jsStartsWith (lowerStr browserLang) lang) with
    | some lang => lang
    | none => cfg.defaultLanguage
  else cfg.defaultLanguage

example :
    detectLanguage ["en", "fr"] ⟨"en", "en", true⟩ none "fr-FR" = "fr" := by decide
example :
    detectLanguage ["en", "fr"] ⟨"en", "en", true⟩ (some "fr") "en-US" = "fr" := by decide

/-- The try/catch body of `setLanguage(lang)` (src/langjs.js lines
77-107), after the availability substitution has produced `lang1`.
`fetch` is the `loadLanguageFile` collaborator (`none` models a thrown
retrieval error), `pageKeys` the keys the `translatePage()` call on the
success path resolves, and `retry` the self-call used for the single
fallback retry.  Returns the promised boolean, the final state, and the
ordered list of language tags for which a dictionary retrieval was
attempted. -/
def setLanguageStep (cfg : Config) (fetch : String → Option JValue)
    (pageKeys : List String)
    (retry : LState → String → Bool × LState × List String)
    (s : LState) (lang1 : String) : Bool × LState × List String :=
  match fetch lang1 with
  | some langData =>
      (true,
       runGets { s with languageDict := langData
                        currentLanguage := some lang1
                        translationCache := [] } pageKeys,
       [lang1])
  | none =>
      if lang1 ≠ cfg.fallbackLanguage then
        match retry s cfg.fallbackLanguage with
        | (r, s2, attempts) => (r, s2, lang1 :: attempts)
      else (false, s, [lang1])

/-- `setLanguage(lang)` from src/langjs.js lines 71-108: the
availability check substitutes the fallback tag (lines 72-75), then the
try/catch body runs, with the recursive fallback retry fuel-indexed
(`setLanguageAux_fuel` below shows any fuel from 2 up gives the same
function, so the fuel is a presentation device, not a semantic bound). -/
def setLanguageAux (available : List String) (cfg : Config)
    (fetch : String → Option JValue) (pageKeys : List String) :
    Nat → LState → String → Bool × LState × List String
  | 0, s, _ => (false, s, [])
  | fuel + 1, s, lang =>
      setLanguageStep cfg fetch pageKeys
        (setLanguageAux available cfg fetch pageKeys fuel) s
        (if available.contains lang then lang else cfg.fallbackLanguage)

/-- `setLanguage` proper. -/
def setLanguage (available : List String) (cfg : Config)
    (fetch : String → Option JValue) (pageKeys : List String)
    (s : LState) (lang : String) : Bool × LState × List String :=
  setLanguageAux available cfg fetch pageKeys 2 s lang

/-- `isLanguageAvailable(lang)` from src/langjs.js lines 228-230. -/
def isLanguageAvailable (available : List String) (lang : String) : Bool :=
  available.contains lang

/-!
JavaScript arrays are mutable references, so for `getAvailableLanguages`
(src/langjs.js lines 221-223, `return [...this.availableLanguages]`) the
aliasing behaviour is modelled with a small heap: a list of string arrays
indexed by natural-number references.  The instance holds a reference to
its `availableLanguages` array; the spread expression allocates a fresh
array holding a copy of the contents.
-/

/-- Read the array behind reference `r` (empty for a dangling reference). -/
def readArr (heap : List (List String)) (r : Nat) : List String :=
  heap.getD r []

/-- Mutate the array behind reference `r` in place. -/
def writeArr (heap : List (List String)) (r : Nat) (a : List String) :
    List (List String) :=
  heap.set r a

/-- `getAvailableLanguages()`: allocate a fresh array (the next free
reference) holding a copy of the instance's `availableLanguages`, and
return its reference together with the grown heap. -/
def getAvailableLanguages (heap : List (List String)) (availRef : Nat) :
    Nat × List (List String) :=
  (heap.length, heap ++ [readArr heap availRef])

/-!
The DOM layer.  An element carries a tag name, its attribute list (where
`aria-label` lands, since the source writes it with `setAttribute`), and
the `textContent`, `value`, `placeholder` and `title` properties the
translation passes assign.  Subtrees are rose trees, given as a mutual
inductive pair so that all functions are plain structural recursions.
-/

structure ElemData where
  tag : String
  attrs : List (String × String)
  text : String
  value : String
  placeholder : String
  title : String

mutual
inductive DomTree where
  | node : ElemData → DomForest → DomTree
inductive DomForest where
  | nil : DomForest
  | cons : DomTree → DomForest → DomForest
end

/-- `element.getAttribute(a)` (`none` models `null`). -/
def getAttr (e : ElemData) (a : String) : Option String :=
  List.lookup a e.attrs

/-- `element.setAttribute(a, v)`: replace in place, or append when absent. -/
def setAttr (attrs : List (String × String)) (a v : String) : List (String × String) :=
  match attrs with
  | [] => [(a, v)]
  | (k, w) :: rest => if k = a then (k, v) :: rest else (k, w) :: setAttr rest a v

mutual
/-- Apply a per-element update to every element of a subtree (the effect
of a `querySelectorAll` loop whose body only touches the element it is
visiting, with the update a no-op on non-matching elements). -/
def mapTree (f : ElemData → ElemData) : DomTree → DomTree
  | DomTree.node e cs => DomTree.node (f e) (mapForest f cs)
/-- Forest version of `mapTree`. -/
def mapForest (f : ElemData → ElemData) : DomForest → DomForest
  | DomForest.nil => DomForest.nil
  | DomForest.cons t ts => DomForest.cons (mapTree f t) (mapForest f ts)
end

/-- The body of the content-attribute loop of `translatePage`
(src/langjs.js lines 129-141): if the element carries marker attribute
`a` with a truthy (non-empty) key, write the translation into `value`
for INPUT/TEXTAREA elements and into `textContent` otherwise. -/
def contentUpd (tr : String → String) (a : String) (e : ElemData) : ElemData :=
  match getAttr e a with
  | some k =>
      if k ≠ "" then
        if e.tag = "INPUT" ∨ e.tag = "TEXTAREA" then { e with value := tr k }
        else { e with text := tr k }
      else e
  | none => e

/-- The placeholder loop of `translatePage` (lines 144-149). -/
def placeholderUpd (tr : String → String) (pa : String) (e : ElemData) : ElemData :=
  match getAttr e pa with
  | some k => if k ≠ "" then { e with placeholder := tr k } else e
  | none => e

/-- The title loop of `translatePage` (lines 152-157). -/
def titleUpd (tr : String → String) (ta : String) (e : ElemData) : ElemData :=
  match getAttr e ta with
  | some k => if k ≠ "" then { e with title := tr k } else e
  | none => e

/-- The aria-label loop of `translatePage` (lines 160-165): the result is
written with `setAttribute('aria-label', ...)`. -/
def ariaUpd (tr : String → String) (e : ElemData) : ElemData :=
  match getAttr e "translate-aria" with
  | some k => if k ≠ "" then { e with attrs := setAttr e.attrs "aria-label" (tr k) } else e
  | none => e

/-- `translatePage()` (src/langjs.js lines 127-166) restricted to one
subtree: one whole-subtree sweep per configured content attribute, in
order, then the placeholder, title and aria-label sweeps.  `tr` is the
resolution entry point (`this.get`) as a displayable string. -/
def translatePageOn (attributes : List String) (pa ta : String)
    (tr : String → String) (t : DomTree) : DomTree :=
  mapTree (ariaUpd tr)
    (mapTree (titleUpd tr ta)
      (mapTree (placeholderUpd tr pa)
        (attributes.foldl (fun t a => mapTree (contentUpd tr a) t) t)))

/-- The per-element update of `translateElement` (src/langjs.js lines
279-301): always writes `textContent`, whatever the tag. -/
def contentTextUpd (tr : String → String) (a : String) (e : ElemData) : ElemData :=
  match getAttr e a with
  | some k => if k ≠ "" then { e with text := tr k } else e
  | none => e

/-- `translateElement(element)` from src/langjs.js lines 279-301: the
root element is processed once per configured content attribute
(`hasAttribute` guard), then each content attribute is swept over the
descendants (`querySelectorAll` excludes the root).  Only `textContent`
is ever written; the placeholder, title and aria-label markers are not
consulted. -/
def translateElement (attributes : List String) (tr : String → String) :
    DomTree → DomTree
  | DomTree.node e cs =>
      DomTree.node (attributes.foldl (fun e a => contentTextUpd tr a e) e)
        (attributes.foldl (fun cs a => mapForest (contentTextUpd tr a) cs) cs)

/-- The string JavaScript writes when a translation value is assigned to
a DOM sink: strings pass through, a plain object coerces to
`"[object Object]"`. -/
def jsToString : JValue → String
  | JValue.str s => s
  | JValue.obj _ => "[object Object]"

mutual
/-- `P` holds of every element of the subtree. -/
def allTreeB (P : ElemData → Bool) : DomTree → Bool
  | DomTree.node e cs => P e && allForestB P cs
/-- `P` holds of every element of the forest. -/
def allForestB (P : ElemData → Bool) : DomForest → Bool
  | DomForest.nil => true
  | DomForest.cons t ts => allTreeB P t && allForestB P ts
end

/-- The root element of a subtree. -/
def rootData : DomTree → ElemData
  | DomTree.node e _ => e

/-- The children forest of a subtree. -/
def childrenOf : DomTree → DomForest
  | DomTree.node _ cs => cs

/-- A case-insensitive leading-match test (both sides lowercased), the
reading of the claim that the browser-language step matches tags
"case-insensitively". -/
def tagMatchCI (tag loc : String) : Bool :=
  charsLE (lowerStr tag).data (lowerStr loc).data

/-- The initial-selection procedure exactly as the claim words it
(priority (1) membership of the stored preference, (2) first available
tag that is a case-insensitive prefix of the locale, (3) the default);
kept separate from `detectLanguage` so the two can be compared. -/
def detectLanguageClaimed (available : List String) (defaultLang : String)
    (stored : Option String) (browserLang : String) : String :=
  let fromBrowser :=
    match available.find? (fun lang => tagMatchCI lang browserLang) with
    | some lang => lang
    | none => defaultLang
  match stored with
  | some s => if available.contains s then s else fromBrowser
  | none => fromBrowser

/-- The amended selection procedure: (1) the stored preference when it is
non-empty and available, (2) the first available tag that is a prefix of
the lowercased locale (the tag itself taken verbatim), (3) the default. -/
def detectLanguageAmended (available : List String) (defaultLang : String)
    (stored : Option String) (browserLang : String) : String :=
  let step1 : Option String :=
    match stored with
    | some s => if s ≠ "" && available.contains s then some s else none
    | none => none
  let step2 : Option String :=
    available.find? (fun lang => jsStartsWith (lowerStr browserLang) lang)
  (step1.orElse fun _ => step2).getD defaultLang

/-- Every entry of the cache is a value `get` computes from `dict`: no
entry can stem from any other dictionary. -/
def CacheOk (dict : JValue) (cache : List (String × JValue)) : Prop :=
  ∀ ck v, List.lookup ck cache = some v →
    ∃ key params, ck = cacheKey key params ∧ v = computeGet dict key params

/-- The example dictionary `⦃nav: ⦃home: "Home"⦄⦄` used throughout the spec. -/
def navDict : JValue :=
  JValue.obj [("nav", JValue.obj [("home", JValue.str "Home")])]

/-- The dictionary source used by the C5 witness: only `"en"` loads. -/
def isoFetch : String → Option JValue :=
  fun lang => if lang = "en" then some navDict else none

/-- First C5 witness pre-state: stale cache and a different dictionary. -/
def isoS1 : LState :=
  ⟨some "fr", JValue.obj [("nav", JValue.str "OLD")], [("stale", JValue.str "old")], [1]⟩

/-- Second C5 witness pre-state: a fresh instance. -/
def isoS2 : LState := ⟨none, JValue.obj [], [], [3]⟩

/-- Post-state of the first C5 witness activation. -/
def isoT1 : LState :=
  (setLanguage ["en"] ⟨"en", "en", true⟩ isoFetch ["nav.home"] isoS1 "en").2.1

/-- Post-state of the second C5 witness activation. -/
def isoT2 : LState :=
  (setLanguage ["en"] ⟨"en", "en", true⟩ isoFetch ["nav.home"] isoS2 "en").2.1

/-- The elements on which the incremental pass and the (restricted) full
pass agree pointwise: not an INPUT or TEXTAREA, and carrying none of the
placeholder, title or aria marker attributes. -/
def okElem (pa ta : String) (e : ElemData) : Bool :=
  !(e.tag == "INPUT") && !(e.tag == "TEXTAREA")
    && (getAttr e pa).isNone && (getAttr e ta).isNone
    && (getAttr e "translate-aria").isNone

/-- The resolution function used by the C2 scenarios: `get` against the
`nav` dictionary, coerced to the string the DOM write produces. -/
def navTr (k : String) : String := jsToString (computeGet navDict k [])

/-- The C2 counterexample subtree: an INPUT marked with a content
attribute, whose only child carries a placeholder marker. -/
def ceTree : DomTree :=
  DomTree.node ⟨"INPUT", [("translate", "nav.home")], "", "", "", ""⟩
    (DomForest.cons
      (DomTree.node ⟨"DIV", [("translate-placeholder", "nav.home")], "", "", "", ""⟩
        DomForest.nil)
      DomForest.nil)

/-- The placeholder property of the first child of a subtree. -/
def firstChildPlaceholder (t : DomTree) : String :=
  match childrenOf t with
  | DomForest.cons c _ => (rootData c).placeholder
  | DomForest.nil => ""

/-- The C2 witness subtree: a DIV with a content marker and a child DIV
with another content marker, no other markers anywhere. -/
def okTree : DomTree :=
  DomTree.node ⟨"DIV", [("translate", "nav.home")], "", "", "", ""⟩
    (DomForest.cons
      (DomTree.node ⟨"SPAN", [("data-translate", "nav.missing")], "", "", "", ""⟩
        DomForest.nil)
      DomForest.nil)

/-!
Lemmas about the interpolation scanner: the scan coincides with
decomposing the text into literal characters and placeholder tokens and
rendering that decomposition with a single, non-recursive substitution.
-/

theorem renderSub_lits (params : List (String × String)) (xs : List Char) (s : List Seg) :
    renderSub params (xs.map Seg.lit ++ s) = xs ++ renderSub params s := by
  induction xs with
  | nil => rfl
  | cons c cs ih => simp [renderSub, ih]

theorem renderRaw_lits (xs : List Char) (s : List Seg) :
    renderRaw (xs.map Seg.lit ++ s) = xs ++ renderRaw s := by
  induction xs with
  | nil => rfl
  | cons c cs ih => simp [renderRaw, ih]

theorem renderSub_lits_rev (params : List (String × String)) (xs : List Char) (s : List Seg) :
    renderSub params ((xs.map Seg.lit).reverse ++ s) = xs.reverse ++ renderSub params s := by
  rw [← List.map_reverse]
  exact renderSub_lits params xs.reverse s

theorem renderRaw_lits_rev (xs : List Char) (s : List Seg) :
    renderRaw ((xs.map Seg.lit).reverse ++ s) = xs.reverse ++ renderRaw s := by
  rw [← List.map_reverse]
  exact renderRaw_lits xs.reverse s

theorem interpGoA_eq_renderSub (params : List (String × String)) :
    ∀ (l : List Char) (st : Option (List Char)),
      interpGoA params l st = renderSub params (tokenizeA l st) := by
  intro l
  induction l with
  | nil =>
    intro st
    cases st with
    | none => rfl
    | some acc =>
      have h := renderSub_lits params acc.reverse []
      simp [interpGoA, tokenizeA, renderSub] at h ⊢
      simp [h]
  | cons c rest ih =>
    intro st
    cases st with
    | none =>
      by_cases h : c = '{' <;> simp [interpGoA, tokenizeA, renderSub, h, ih]
    | some acc =>
      by_cases hw : isWordChar c
      · simp [interpGoA, tokenizeA, hw, ih]
      · by_cases hc : c = '}'
        · subst hc
          have hw' : isWordChar '}' = false := by decide
          cases acc with
          | nil => simp [interpGoA, tokenizeA, renderSub, hw', ih]
          | cons a as =>
            cases hL : List.lookup (String.mk ((a :: as).reverse)) params with
            | none => simp [interpGoA, tokenizeA, renderSub, hw', hL, ih]
            | some v => simp [interpGoA, tokenizeA, renderSub, hw', hL, ih]
        · by_cases hb : c = '{'
          · subst hb
            have hw' : isWordChar '{' = false := by decide
            have hne : ('{' : Char) ≠ '}' := by decide
            simp [interpGoA, tokenizeA, renderSub, hw', hne, ih, renderSub_lits_rev]
          · simp [interpGoA, tokenizeA, renderSub, hw, hc, hb, ih, renderSub_lits_rev]

theorem renderRaw_tokenizeA :
    ∀ (l : List Char) (st : Option (List Char)),
      renderRaw (tokenizeA l st) =
        (match st with
         | none => l
         | some acc => '{' :: (acc.reverse ++ l)) := by
  intro l
  induction l with
  | nil =>
    intro st
    cases st with
    | none => rfl
    | some acc =>
      have h := renderRaw_lits acc.reverse []
      simp [tokenizeA, renderRaw] at h ⊢
      simp [h]
  | cons c rest ih =>
    intro st
    cases st with
    | none =>
      by_cases h : c = '{' <;> simp [tokenizeA, renderRaw, h, ih]
    | some acc =>
      by_cases hw : isWordChar c
      · simp [tokenizeA, hw, ih]
      · by_cases hc : c = '}'
        · subst hc
          have hw' : isWordChar '}' = false := by decide
          cases acc with
          | nil => simp [tokenizeA, renderRaw, hw', ih]
          | cons a as => simp [tokenizeA, renderRaw, hw', ih, String.mk]
        · by_cases hb : c = '{'
          · subst hb
            have hw' : isWordChar '{' = false := by decide
            have hne : ('{' : Char) ≠ '}' := by decide
            simp [tokenizeA, renderRaw, hw', hne, ih, renderRaw_lits_rev]
          · simp [tokenizeA, renderRaw, hw, hc, hb, ih, renderRaw_lits_rev]

theorem renderSub_nil_params : ∀ s : List Seg, renderSub [] s = renderRaw s := by
  intro s
  induction s with
  | nil => rfl
  | cons seg rest ih => cases seg <;> simp [renderSub, renderRaw, ih]

theorem interpolate_empty_params (text : String) : interpolate text [] = text := by
  unfold interpolate
  rw [interpGoA_eq_renderSub, renderSub_nil_params]
  have h := renderRaw_tokenizeA text.data none
  simp only at h
  rw [h]

/-- Distinct constructors of `JValue` are never equal. -/
theorem jvalue_obj_ne_str (l : List (String × JValue)) (s : String) :
    JValue.obj l ≠ JValue.str s := fun h => JValue.noConfusion h

/-- C7: `interpolate` coincides with decomposing the text into literal
characters and placeholder tokens and rendering that decomposition with a
single, non-recursive substitution: each token whose name is bound in
`params` is replaced by the bound string, each unbound token is kept
literally, and substituted values are emitted verbatim, never rescanned.
The decomposition is faithful (rendering it back raw gives the original
text), and the two concrete round-trips of the claim hold. -/
theorem interpolate_token_substitution :
    (∀ (text : String) (params : List (String × String)),
       interpolate text params = String.mk (renderSub params (tokenize text.data)))
    ∧ (∀ l : List Char, renderRaw (tokenize l) = l)
    ∧ interpolate "Hello {name}" [("name", "John")] = "Hello John"
    ∧ interpolate "Hi {missing}" [] = "Hi {missing}" := by
  refine ⟨fun text params => ?_, fun l => ?_, by decide, by decide⟩
  · unfold interpolate tokenize
    rw [interpGoA_eq_renderSub]
  · have h := renderRaw_tokenizeA l none
    simpa using h

/-- C8: a repeated `get` with the dictionary unchanged returns the same
value, is served from the cache (no second dictionary walk: the walk
flag of the second call is `false`), and leaves the state as it was
after the first call; `get` itself never changes the dictionary. -/
theorem get_idempotent_cached (s : LState) (key : String)
    (params : List (String × String)) :
    (getM ((getM s key params).2.1) key params).1 = (getM s key params).1
    ∧ (getM ((getM s key params).2.1) key params).2.2 = false
    ∧ (getM ((getM s key params).2.1) key params).2.1 = (getM s key params).2.1
    ∧ ((getM s key params).2.1).languageDict = s.languageDict := by
  unfold getM
  cases hL : List.lookup (cacheKey key params) s.translationCache with
  | some v => simp [hL]
  | none => simp [hL]

/-- C9: `destroy` disconnects every registered observer (the returned
list of `disconnect()` calls is exactly the observer list), empties the
observer list and clears the cache, while `currentLanguage` and
`languageDict` are untouched, so a later `get` still resolves against
the last active dictionary. -/
theorem destroy_frame (s : LState) :
    (destroy s).2 = s.observers
    ∧ (destroy s).1.observers = []
    ∧ (destroy s).1.translationCache = []
    ∧ (destroy s).1.currentLanguage = s.currentLanguage
    ∧ (destroy s).1.languageDict = s.languageDict
    ∧ ∀ (key : String) (params : List (String × String)),
        (getM (destroy s).1 key params).1 = computeGet s.languageDict key params := by
  refine ⟨rfl, rfl, rfl, rfl, rfl, fun key params => ?_⟩
  simp [destroy, getM]

/-- C1 (amended): when the dot-path walk succeeds on every segment but
ends on a group node, `get` does NOT treat this as a miss: it returns the
sub-tree itself (a `JValue.obj`), caches it under the key, and reports a
performed walk. -/
theorem get_group_returns_subtree (s : LState) (key : String)
    (params : List (String × String)) (fields : List (String × JValue))
    (hwalk : lookupSegs s.languageDict (splitKey key) = some (JValue.obj fields))
    (hmiss : List.lookup (cacheKey key params) s.translationCache = none) :
    getM s key params =
      (JValue.obj fields,
       { s with translationCache :=
           (cacheKey key params, JValue.obj fields) :: s.translationCache },
       true) := by
  unfold getM computeGet getValue
  simp [hmiss, hwalk]

/-- Witness for C1 (amended): the walk for `"nav"` against
`⦃nav: ⦃home: "Home"⦄⦄` ends on the inner group, and `get` returns that
group. -/
theorem get_group_returns_subtree_witness :
    lookupSegs navDict (splitKey "nav") = some (JValue.obj [("home", JValue.str "Home")])
    ∧ (getM ⟨some "en", navDict, [], []⟩ "nav" []).1
        = JValue.obj [("home", JValue.str "Home")] := by
  refine ⟨rfl, ?_⟩
  rw [get_group_returns_subtree ⟨some "en", navDict, [], []⟩ "nav" []
        [("home", JValue.str "Home")] rfl rfl]

/-- Counterexample to C1 as stated: `get("nav")` against
`⦃nav: ⦃home: "Home"⦄⦄` returns the group's internal representation, not
the literal key string `"nav"`. -/
theorem get_group_counterexample :
    (getM ⟨some "en", navDict, [], []⟩ "nav" []).1
        = JValue.obj [("home", JValue.str "Home")]
    ∧ (getM ⟨some "en", navDict, [], []⟩ "nav" []).1 ≠ JValue.str "nav" :=
  ⟨rfl, jvalue_obj_ne_str _ _⟩

/-- C6 (amended): for a path absent from the dictionary (the walk misses
on some segment), `get` yields the path string with parameter
interpolation applied to it; only when `params` is empty is the path
returned verbatim. -/
theorem get_miss_returns_interpolated_key (dict : JValue) (key : String)
    (params : List (String × String))
    (hmiss : lookupSegs dict (splitKey key) = none) :
    computeGet dict key params = JValue.str (interpolate key params)
    ∧ (params.isEmpty = true → computeGet dict key params = JValue.str key) := by
  cases params with
  | nil =>
    refine ⟨?_, fun _ => ?_⟩ <;>
      simp [computeGet, getValue, hmiss, interpolate_empty_params]
  | cons p ps =>
    refine ⟨?_, fun hc => by simp [List.isEmpty] at hc⟩
    simp [computeGet, getValue, hmiss]

/-- Witness for C6 (amended): the absent path `"missing.key"` with a
parameter map is returned interpolated (here unchanged, as it holds no
token). -/
theorem get_miss_returns_interpolated_key_witness :
    lookupSegs navDict (splitKey "missing.key") = none
    ∧ computeGet navDict "missing.key" [("a", "X")]
        = JValue.str (interpolate "missing.key" [("a", "X")])
    ∧ computeGet navDict "missing.key" [] = JValue.str "missing.key" :=
  ⟨rfl, (get_miss_returns_interpolated_key navDict "missing.key" [("a", "X")] rfl).1,
    (get_miss_returns_interpolated_key navDict "missing.key" [] rfl).2 rfl⟩

/-- Counterexample to C6 as stated: the absent path `"{a}"` is NOT
returned unchanged when `params` binds `a` — the miss fallback is
interpolated, so `get` returns `"X"`. -/
theorem get_miss_params_counterexample :
    (getM ⟨none, JValue.obj [], [], []⟩ "{a}" [("a", "X")]).1 = JValue.str "X"
    ∧ JValue.str "X" ≠ JValue.str "{a}" := by
  refine ⟨rfl, fun h => ?_⟩
  injection h with h'
  exact absurd h' (by decide)

/-- C10: `getAvailableLanguages` hands out a fresh array: its reference
differs from the instance's internal one, it holds a copy of the
contents, and writing anything through the returned reference leaves the
internal array — and hence `isLanguageAvailable` — unchanged. -/
theorem getAvailableLanguages_fresh_copy (heap : List (List String)) (availRef : Nat)
    (h : availRef < heap.length) :
    (getAvailableLanguages heap availRef).1 ≠ availRef
    ∧ readArr (getAvailableLanguages heap availRef).2 (getAvailableLanguages heap availRef).1
        = readArr heap availRef
    ∧ (∀ a, readArr
          (writeArr (getAvailableLanguages heap availRef).2
            (getAvailableLanguages heap availRef).1 a) availRef
        = readArr heap availRef)
    ∧ (∀ a lang, isLanguageAvailable
          (readArr (writeArr (getAvailableLanguages heap availRef).2
            (getAvailableLanguages heap availRef).1 a) availRef) lang
        = isLanguageAvailable (readArr heap availRef) lang) := by
  have hcopy : ∀ a, readArr
      (writeArr (getAvailableLanguages heap availRef).2
        (getAvailableLanguages heap availRef).1 a) availRef
      = readArr heap availRef := by
    intro a
    simp only [getAvailableLanguages, writeArr, readArr, List.getD_eq_getElem?_getD]
    rw [List.getElem?_set_ne (Nat.ne_of_gt h), List.getElem?_append_left h]
  refine ⟨Nat.ne_of_gt h, ?_, hcopy, fun a lang => by rw [hcopy a]⟩
  simp only [getAvailableLanguages, readArr, List.getD_eq_getElem?_getD]
  rw [List.getElem?_concat_length]
  rfl

/-- Counterexample to C4 as stated: (a) with available tag `"EN"` and
locale `"EN-US"` the code lowercases only the locale, so the
case-insensitive prefix match the claim describes does not happen and
the default is returned instead of `"EN"`; (b) an empty stored
preference that IS a member of the available list is skipped by the
code (JavaScript truthiness), again diverging from the claimed
priority. -/
theorem detectLanguage_claimed_counterexample :
    detectLanguage ["EN"] ⟨"de", "en", true⟩ none "EN-US" = "de"
    ∧ detectLanguageClaimed ["EN"] "de" none "EN-US" = "EN"
    ∧ detectLanguage ["en", ""] ⟨"de", "en", true⟩ (some "") "en-US" = "en"
    ∧ detectLanguageClaimed ["en", ""] "de" (some "") "en-US" = "" := by
  refine ⟨?_, ?_, ?_, ?_⟩ <;> decide

/-- C4 (amended): with environment detection enabled, `detectLanguage`
realises this priority order, first match winning: (1) the stored
preference when it is non-empty and a member of the available list;
(2) the first available tag that is a (verbatim) prefix of the
lowercased environment locale; (3) the configured default.  The
selection is a total function. -/
theorem detectLanguage_priority_amended (available : List String)
    (defaultLang fallbackLang : String) (stored : Option String)
    (browserLang : String) :
    detectLanguage available ⟨defaultLang, fallbackLang, true⟩ stored browserLang
      = detectLanguageAmended available defaultLang stored browserLang := by
  have hbrowser :
      (match available.find? (fun lang => jsStartsWith (lowerStr browserLang) lang) with
       | some lang => lang
       | none => defaultLang)
      = (available.find? (fun lang => jsStartsWith (lowerStr browserLang) lang)).getD
          defaultLang := by
    cases available.find? (fun lang => jsStartsWith (lowerStr browserLang) lang) <;> rfl
  unfold detectLanguage detectLanguageAmended storedOk
  cases stored with
  | none => simpa [Option.orElse] using hbrowser
  | some s =>
    by_cases h1 : s = ""
    · subst h1
      simpa [Option.orElse] using hbrowser
    · by_cases h2 : s ∈ available
      · simp [h1, h2, Option.orElse]
      · simpa [h1, h2, Option.orElse] using hbrowser

/-- On the fallback tag, the try/catch body never uses its retry
continuation: either the fetch succeeds, or the `lang !== fallback`
guard fails and the terminal `false` is returned. -/
theorem setLanguageStep_retry_irrel (cfg : Config) (fetch : String → Option JValue)
    (pageKeys : List String)
    (retry₁ retry₂ : LState → String → Bool × LState × List String) (s : LState) :
    setLanguageStep cfg fetch pageKeys retry₁ s cfg.fallbackLanguage
      = setLanguageStep cfg fetch pageKeys retry₂ s cfg.fallbackLanguage := by
  unfold setLanguageStep
  cases hF : fetch cfg.fallbackLanguage with
  | some langData => rfl
  | none =>
    have h : ¬(cfg.fallbackLanguage ≠ cfg.fallbackLanguage) := fun h => h rfl
    rw [if_neg h, if_neg h]

/-- Fuel stability, part 1: once `setLanguage` is re-entered with the
fallback tag, no further recursion happens, so the fuel is irrelevant. -/
theorem setLanguageAux_fb (available : List String) (cfg : Config)
    (fetch : String → Option JValue) (pageKeys : List String) :
    ∀ (n : Nat) (s : LState),
      setLanguageAux available cfg fetch pageKeys (n + 1) s cfg.fallbackLanguage
        = setLanguageAux available cfg fetch pageKeys 1 s cfg.fallbackLanguage := by
  intro n s
  unfold setLanguageAux
  rw [ite_self]
  exact setLanguageStep_retry_irrel cfg fetch pageKeys _ _ s

/-- Fuel stability, part 2: any fuel from 2 up computes the same
function, so the fuel in `setLanguage` is a presentation device and the
embedding loses no behaviour of the self-recursive source. -/
theorem setLanguageAux_fuel (available : List String) (cfg : Config)
    (fetch : String → Option JValue) (pageKeys : List String) :
    ∀ (n : Nat) (s : LState) (lang : String),
      setLanguageAux available cfg fetch pageKeys (n + 2) s lang
        = setLanguageAux available cfg fetch pageKeys 2 s lang := by
  intro n s lang
  show setLanguageAux available cfg fetch pageKeys (n + 1 + 1) s lang
        = setLanguageAux available cfg fetch pageKeys (1 + 1) s lang
  unfold setLanguageAux setLanguageStep
  cases hF : fetch (if available.contains lang then lang else cfg.fallbackLanguage) with
  | some langData => rfl
  | none =>
    by_cases hne : (if available.contains lang then lang else cfg.fallbackLanguage)
        ≠ cfg.fallbackLanguage
    · rw [if_pos hne, if_pos hne, setLanguageAux_fb]
    · rw [if_neg hne, if_neg hne]

/-- C3: activating an unavailable language whose fallback dictionary
fails to load makes exactly one retrieval attempt (at the fallback tag),
returns `false`, and leaves the whole instance state — in particular
`currentLanguage`, `languageDict` and the translation cache — exactly as
it was; there is no further fallback chaining. -/
theorem setLanguage_fallback_bounded (available : List String) (cfg : Config)
    (fetch : String → Option JValue) (pageKeys : List String) (s : LState)
    (lang : String)
    (hna : available.contains lang = false)
    (hfb : fetch cfg.fallbackLanguage = none) :
    setLanguage available cfg fetch pageKeys s lang
      = (false, s, [cfg.fallbackLanguage]) := by
  unfold setLanguage setLanguageAux setLanguageStep
  have hc : ¬(available.contains lang = true) :=
    fun h => Bool.false_ne_true (hna ▸ h)
  rw [if_neg hc, hfb,
    if_neg (fun h : ¬cfg.fallbackLanguage = cfg.fallbackLanguage => h rfl)]

/-- Witness for C3: requesting the unavailable `"de"` while every fetch
fails attempts only `"fr"` (the fallback), fails, and preserves the
state. -/
theorem setLanguage_fallback_bounded_witness :
    (["en", "fr"].contains "de") = false
    ∧ (fun (_ : String) => (none : Option JValue)) "fr" = none
    ∧ setLanguage ["en", "fr"] ⟨"en", "fr", true⟩ (fun _ => none) ["nav.home"]
        ⟨some "en", navDict, [("k", JValue.str "v")], [7]⟩ "de"
      = (false, ⟨some "en", navDict, [("k", JValue.str "v")], [7]⟩, ["fr"]) :=
  ⟨rfl, rfl,
   setLanguage_fallback_bounded ["en", "fr"] ⟨"en", "fr", true⟩ (fun _ => none)
     ["nav.home"] ⟨some "en", navDict, [("k", JValue.str "v")], [7]⟩ "de" rfl rfl⟩

theorem getM_state (s : LState) (k : String) (p : List (String × String)) :
    ((getM s k p).2.1).languageDict = s.languageDict
    ∧ ((getM s k p).2.1).currentLanguage = s.currentLanguage
    ∧ ((getM s k p).2.1).observers = s.observers := by
  unfold getM
  cases hL : List.lookup (cacheKey k p) s.translationCache <;> simp [hL]

theorem getM_cacheOk (dict : JValue) (s : LState) (k : String)
    (p : List (String × String)) (hd : s.languageDict = dict)
    (h : CacheOk dict s.translationCache) :
    CacheOk dict ((getM s k p).2.1).translationCache := by
  unfold getM
  cases hL : List.lookup (cacheKey k p) s.translationCache with
  | some v => simpa [hL] using h
  | none =>
    simp only [hL]
    intro ck v hv
    rw [List.lookup_cons] at hv
    cases hck : (ck == cacheKey k p) with
    | true =>
      rw [hck] at hv
      exact ⟨k, p, eq_of_beq hck, by rw [← hd]; exact (Option.some.inj hv).symm⟩
    | false =>
      rw [hck] at hv
      exact h ck v hv

theorem runGets_state (ks : List String) :
    ∀ s : LState,
      (runGets s ks).languageDict = s.languageDict
      ∧ (runGets s ks).currentLanguage = s.currentLanguage
      ∧ (runGets s ks).observers = s.observers := by
  induction ks with
  | nil => intro s; exact ⟨rfl, rfl, rfl⟩
  | cons k ks ih =>
    intro s
    have h1 := getM_state s k []
    have h2 := ih ((getM s k []).2.1)
    exact ⟨h2.1.trans h1.1, h2.2.1.trans h1.2.1, h2.2.2.trans h1.2.2⟩

theorem runGets_cacheOk (dict : JValue) (ks : List String) :
    ∀ s : LState, s.languageDict = dict → CacheOk dict s.translationCache →
      CacheOk dict (runGets s ks).translationCache := by
  induction ks with
  | nil => intro s _ h; exact h
  | cons k ks ih =>
    intro s hd h
    exact ih ((getM s k []).2.1) ((getM_state s k []).1.trans hd)
      (getM_cacheOk dict s k [] hd h)

theorem getM_cache_determined (s₁ s₂ : LState) (k : String)
    (p : List (String × String))
    (hd : s₁.languageDict = s₂.languageDict)
    (hc : s₁.translationCache = s₂.translationCache) :
    ((getM s₁ k p).2.1).translationCache = ((getM s₂ k p).2.1).translationCache := by
  unfold getM
  rw [hc, hd]
  cases hL : List.lookup (cacheKey k p) s₂.translationCache <;> simp [hL, hc]

theorem runGets_cache_determined (ks : List String) :
    ∀ s₁ s₂ : LState, s₁.languageDict = s₂.languageDict →
      s₁.translationCache = s₂.translationCache →
      (runGets s₁ ks).translationCache = (runGets s₂ ks).translationCache := by
  induction ks with
  | nil => intro _ _ _ hc; exact hc
  | cons k ks ih =>
    intro s₁ s₂ hd hc
    exact ih ((getM s₁ k []).2.1) ((getM s₂ k []).2.1)
      (by rw [(getM_state s₁ k []).1, (getM_state s₂ k []).1, hd])
      (getM_cache_determined s₁ s₂ k [] hd hc)

/-- Any successful activation ends in the state obtained by installing
the fetched dictionary, clearing the cache, and running the full-page
resolutions — whatever the prior state was. -/
theorem setLanguageAux_success_shape (available : List String) (cfg : Config)
    (fetch : String → Option JValue) (pageKeys : List String) :
    ∀ (fuel : Nat) (s t : LState) (lang : String) (a : List String),
      setLanguageAux available cfg fetch pageKeys fuel s lang = (true, t, a) →
      ∃ (lang1 : String) (langData : JValue),
        fetch lang1 = some langData
        ∧ t = runGets { s with languageDict := langData
                               currentLanguage := some lang1
                               translationCache := [] } pageKeys := by
  intro fuel
  induction fuel with
  | zero =>
    intro s t lang a h
    exact absurd h (by simp [setLanguageAux])
  | succ fuel ih =>
    intro s t lang a h
    unfold setLanguageAux setLanguageStep at h
    cases hF : fetch (if available.contains lang then lang else cfg.fallbackLanguage) with
    | some langData =>
      rw [hF] at h
      injection h with _ h
      injection h with hu _
      exact ⟨_, langData, hF, hu.symm⟩
    | none =>
      rw [hF] at h
      by_cases hne : (if available.contains lang then lang else cfg.fallbackLanguage)
          ≠ cfg.fallbackLanguage
      · rw [if_pos hne] at h
        rcases hr : setLanguageAux available cfg fetch pageKeys fuel s cfg.fallbackLanguage
          with ⟨r, u, att⟩
        rw [hr] at h
        injection h with hrb h
        injection h with hu _
        rw [hrb, hu] at hr
        exact ih s t cfg.fallbackLanguage att hr
      · rw [if_neg hne] at h
        exact absurd h (by simp)

/-- The fields of the post-activation state that `get` can observe are
independent of the pre-activation state: two successful activations of
the same language from arbitrary states agree on `currentLanguage`,
`languageDict` and the entire translation cache. -/
theorem setLanguageAux_det (available : List String) (cfg : Config)
    (fetch : String → Option JValue) (pageKeys : List String) :
    ∀ (fuel : Nat) (s₁ s₂ t₁ t₂ : LState) (lang : String) (a₁ a₂ : List String),
      setLanguageAux available cfg fetch pageKeys fuel s₁ lang = (true, t₁, a₁) →
      setLanguageAux available cfg fetch pageKeys fuel s₂ lang = (true, t₂, a₂) →
      t₁.currentLanguage = t₂.currentLanguage
      ∧ t₁.languageDict = t₂.languageDict
      ∧ t₁.translationCache = t₂.translationCache := by
  intro fuel
  induction fuel with
  | zero =>
    intro s₁ s₂ t₁ t₂ lang a₁ a₂ h₁ _
    exact absurd h₁ (by simp [setLanguageAux])
  | succ fuel ih =>
    intro s₁ s₂ t₁ t₂ lang a₁ a₂ h₁ h₂
    unfold setLanguageAux setLanguageStep at h₁ h₂
    cases hF : fetch (if available.contains lang then lang else cfg.fallbackLanguage) with
    | some langData =>
      rw [hF] at h₁ h₂
      injection h₁ with _ h₁
      injection h₁ with hu₁ _
      injection h₂ with _ h₂
      injection h₂ with hu₂ _
      rw [← hu₁, ← hu₂]
      refine ⟨?_, ?_, ?_⟩
      · rw [(runGets_state pageKeys _).2.1, (runGets_state pageKeys _).2.1]
      · rw [(runGets_state pageKeys _).1, (runGets_state pageKeys _).1]
      · exact runGets_cache_determined pageKeys _ _ rfl rfl
    | none =>
      rw [hF] at h₁ h₂
      by_cases hne : (if available.contains lang then lang else cfg.fallbackLanguage)
          ≠ cfg.fallbackLanguage
      · rw [if_pos hne] at h₁ h₂
        rcases hr₁ : setLanguageAux available cfg fetch pageKeys fuel s₁ cfg.fallbackLanguage
          with ⟨r₁, u₁, att₁⟩
        rcases hr₂ : setLanguageAux available cfg fetch pageKeys fuel s₂ cfg.fallbackLanguage
          with ⟨r₂, u₂, att₂⟩
        rw [hr₁] at h₁
        rw [hr₂] at h₂
        injection h₁ with hb₁ h₁
        injection h₁ with hu₁ _
        injection h₂ with hb₂ h₂
        injection h₂ with hu₂ _
        rw [hb₁, hu₁] at hr₁
        rw [hb₂, hu₂] at hr₂
        exact ih s₁ s₂ t₁ t₂ cfg.fallbackLanguage att₁ att₂ hr₁ hr₂
      · rw [if_neg hne] at h₁
        exact absurd h₁ (by simp)

/-- C5: after any successful `setLanguage`, the observable translation
state — `currentLanguage`, `languageDict` and the whole cache — is a
function of the requested language, the dictionary source and the
document alone, independent of the prior state, and every cache entry is
a value computed from the newly installed dictionary.  Hence no cache
entry produced under the prior dictionary is ever observable after an
activation. -/
theorem setLanguage_cache_isolation (available : List String) (cfg : Config)
    (fetch : String → Option JValue) (pageKeys : List String)
    (s₁ s₂ t₁ t₂ : LState) (lang : String) (a₁ a₂ : List String)
    (h₁ : setLanguage available cfg fetch pageKeys s₁ lang = (true, t₁, a₁))
    (h₂ : setLanguage available cfg fetch pageKeys s₂ lang = (true, t₂, a₂)) :
    t₁.currentLanguage = t₂.currentLanguage
    ∧ t₁.languageDict = t₂.languageDict
    ∧ t₁.translationCache = t₂.translationCache
    ∧ CacheOk t₁.languageDict t₁.translationCache := by
  have hdet := setLanguageAux_det available cfg fetch pageKeys 2 s₁ s₂ t₁ t₂ lang a₁ a₂ h₁ h₂
  refine ⟨hdet.1, hdet.2.1, hdet.2.2, ?_⟩
  rcases setLanguageAux_success_shape available cfg fetch pageKeys 2 s₁ t₁ lang a₁ h₁
    with ⟨lang1, langData, _, ht⟩
  have hdict : t₁.languageDict = langData := by
    rw [ht, (runGets_state pageKeys _).1]
  rw [hdict, ht]
  exact runGets_cacheOk langData pageKeys _ rfl (fun ck v hv => by simp at hv)

/-- Witness for C5: activating `"en"` from a state with a stale cache
and from a fresh state yields identical observable translation state,
with every cache entry computed from the new dictionary. -/
theorem setLanguage_cache_isolation_witness :
    isoT1.currentLanguage = isoT2.currentLanguage
    ∧ isoT1.languageDict = isoT2.languageDict
    ∧ isoT1.translationCache = isoT2.translationCache
    ∧ CacheOk isoT1.languageDict isoT1.translationCache :=
  setLanguage_cache_isolation ["en"] ⟨"en", "en", true⟩ isoFetch ["nav.home"]
    isoS1 isoS2 isoT1 isoT2 "en"
    (setLanguage ["en"] ⟨"en", "en", true⟩ isoFetch ["nav.home"] isoS1 "en").2.2
    (setLanguage ["en"] ⟨"en", "en", true⟩ isoFetch ["nav.home"] isoS2 "en").2.2
    rfl rfl

/-!
Lemmas for the comparison of the incremental pass with the full pass.
-/

theorem contentUpd_frame (tr : String → String) (a : String) (e : ElemData) :
    (contentUpd tr a e).tag = e.tag ∧ (contentUpd tr a e).attrs = e.attrs := by
  unfold contentUpd
  split
  all_goals try split
  all_goals try split
  all_goals exact ⟨rfl, rfl⟩

theorem contentTextUpd_frame (tr : String → String) (a : String) (e : ElemData) :
    (contentTextUpd tr a e).tag = e.tag ∧ (contentTextUpd tr a e).attrs = e.attrs := by
  unfold contentTextUpd
  split
  all_goals try split
  all_goals exact ⟨rfl, rfl⟩

theorem okElem_congr (pa ta : String) (e₁ e₂ : ElemData)
    (ht : e₁.tag = e₂.tag) (ha : e₁.attrs = e₂.attrs) :
    okElem pa ta e₁ = okElem pa ta e₂ := by
  unfold okElem getAttr
  rw [ht, ha]

theorem contentUpd_ok (pa ta : String) (tr : String → String) (a : String) (e : ElemData) :
    okElem pa ta (contentUpd tr a e) = okElem pa ta e :=
  okElem_congr pa ta _ e (contentUpd_frame tr a e).1 (contentUpd_frame tr a e).2

theorem okElem_spec (pa ta : String) (e : ElemData) (h : okElem pa ta e = true) :
    e.tag ≠ "INPUT" ∧ e.tag ≠ "TEXTAREA"
    ∧ getAttr e pa = none ∧ getAttr e ta = none
    ∧ getAttr e "translate-aria" = none := by
  unfold okElem at h
  simp only [Bool.and_eq_true, Bool.not_eq_true', beq_eq_false_iff_ne,
    Option.isNone_iff_eq_none] at h
  exact ⟨h.1.1.1.1, h.1.1.1.2, h.1.1.2, h.1.2, h.2⟩

theorem contentUpd_eq_text (pa ta : String) (tr : String → String) (a : String)
    (e : ElemData) (h : okElem pa ta e = true) :
    contentUpd tr a e = contentTextUpd tr a e := by
  obtain ⟨h1, h2, _, _, _⟩ := okElem_spec pa ta e h
  have htag : ¬(e.tag = "INPUT" ∨ e.tag = "TEXTAREA") := fun hc => hc.elim h1 h2
  unfold contentUpd contentTextUpd
  split
  next k hka =>
    by_cases hk : k ≠ ""
    · rw [if_pos hk, if_pos hk, if_neg htag]
    · rw [if_neg hk, if_neg hk]
  next => rfl

theorem placeholderUpd_id (pa ta : String) (tr : String → String) (e : ElemData)
    (h : okElem pa ta e = true) : placeholderUpd tr pa e = e := by
  obtain ⟨_, _, h3, _, _⟩ := okElem_spec pa ta e h
  unfold placeholderUpd
  rw [h3]

theorem titleUpd_id (pa ta : String) (tr : String → String) (e : ElemData)
    (h : okElem pa ta e = true) : titleUpd tr ta e = e := by
  obtain ⟨_, _, _, h4, _⟩ := okElem_spec pa ta e h
  unfold titleUpd
  rw [h4]

theorem ariaUpd_id (pa ta : String) (tr : String → String) (e : ElemData)
    (h : okElem pa ta e = true) : ariaUpd tr e = e := by
  obtain ⟨_, _, _, _, h5⟩ := okElem_spec pa ta e h
  unfold ariaUpd
  rw [h5]

mutual
theorem mapTree_id_of_all (P : ElemData → Bool) (f : ElemData → ElemData)
    (hf : ∀ e, P e = true → f e = e) :
    ∀ t : DomTree, allTreeB P t = true → mapTree f t = t
  | DomTree.node e cs, h => by
      have h' : P e = true ∧ allForestB P cs = true := by
        simpa [allTreeB, Bool.and_eq_true] using h
      rw [mapTree, hf e h'.1, mapForest_id_of_all P f hf cs h'.2]
theorem mapForest_id_of_all (P : ElemData → Bool) (f : ElemData → ElemData)
    (hf : ∀ e, P e = true → f e = e) :
    ∀ ts : DomForest, allForestB P ts = true → mapForest f ts = ts
  | DomForest.nil, _ => rfl
  | DomForest.cons t ts, h => by
      have h' : allTreeB P t = true ∧ allForestB P ts = true := by
        simpa [allForestB, Bool.and_eq_true] using h
      rw [mapForest, mapTree_id_of_all P f hf t h'.1,
        mapForest_id_of_all P f hf ts h'.2]
end

mutual
theorem mapTree_congr_of_all (P : ElemData → Bool) (f g : ElemData → ElemData)
    (hfg : ∀ e, P e = true → f e = g e) :
    ∀ t : DomTree, allTreeB P t = true → mapTree f t = mapTree g t
  | DomTree.node e cs, h => by
      have h' : P e = true ∧ allForestB P cs = true := by
        simpa [allTreeB, Bool.and_eq_true] using h
      rw [mapTree, mapTree, hfg e h'.1, mapForest_congr_of_all P f g hfg cs h'.2]
theorem mapForest_congr_of_all (P : ElemData → Bool) (f g : ElemData → ElemData)
    (hfg : ∀ e, P e = true → f e = g e) :
    ∀ ts : DomForest, allForestB P ts = true → mapForest f ts = mapForest g ts
  | DomForest.nil, _ => rfl
  | DomForest.cons t ts, h => by
      have h' : allTreeB P t = true ∧ allForestB P ts = true := by
        simpa [allForestB, Bool.and_eq_true] using h
      rw [mapForest, mapForest, mapTree_congr_of_all P f g hfg t h'.1,
        mapForest_congr_of_all P f g hfg ts h'.2]
end

mutual
theorem mapTree_all (P : ElemData → Bool) (f : ElemData → ElemData)
    (hf : ∀ e, P e = true → P (f e) = true) :
    ∀ t : DomTree, allTreeB P t = true → allTreeB P (mapTree f t) = true
  | DomTree.node e cs, h => by
      have h' : P e = true ∧ allForestB P cs = true := by
        simpa [allTreeB, Bool.and_eq_true] using h
      rw [mapTree]
      simp only [allTreeB, Bool.and_eq_true]
      exact ⟨hf e h'.1, mapForest_all P f hf cs h'.2⟩
theorem mapForest_all (P : ElemData → Bool) (f : ElemData → ElemData)
    (hf : ∀ e, P e = true → P (f e) = true) :
    ∀ ts : DomForest, allForestB P ts = true → allForestB P (mapForest f ts) = true
  | DomForest.nil, _ => rfl
  | DomForest.cons t ts, h => by
      have h' : allTreeB P t = true ∧ allForestB P ts = true := by
        simpa [allForestB, Bool.and_eq_true] using h
      rw [mapForest]
      simp only [allForestB, Bool.and_eq_true]
      exact ⟨mapTree_all P f hf t h'.1, mapForest_all P f hf ts h'.2⟩
end

theorem foldl_mapTree_node (g : String → ElemData → ElemData) :
    ∀ (as : List String) (e : ElemData) (cs : DomForest),
      as.foldl (fun t a => mapTree (g a) t) (DomTree.node e cs)
        = DomTree.node (as.foldl (fun e a => g a e) e)
            (as.foldl (fun cs a => mapForest (g a) cs) cs) := by
  intro as
  induction as with
  | nil => intro e cs; rfl
  | cons a as ih =>
    intro e cs
    simp only [List.foldl_cons]
    rw [mapTree]
    exact ih (g a e) (mapForest (g a) cs)

theorem foldl_elem_all (P : ElemData → Bool) (g : String → ElemData → ElemData)
    (hg : ∀ a e, P e = true → P (g a e) = true) :
    ∀ (as : List String) (e : ElemData), P e = true →
      P (as.foldl (fun e a => g a e) e) = true := by
  intro as
  induction as with
  | nil => intro e h; exact h
  | cons a as ih =>
    intro e h
    simp only [List.foldl_cons]
    exact ih (g a e) (hg a e h)

theorem foldl_forest_all (P : ElemData → Bool) (g : String → ElemData → ElemData)
    (hg : ∀ a e, P e = true → P (g a e) = true) :
    ∀ (as : List String) (cs : DomForest), allForestB P cs = true →
      allForestB P (as.foldl (fun cs a => mapForest (g a) cs) cs) = true := by
  intro as
  induction as with
  | nil => intro cs h; exact h
  | cons a as ih =>
    intro cs h
    simp only [List.foldl_cons]
    exact ih (mapForest (g a) cs) (mapForest_all P (g a) (hg a) cs h)

theorem foldl_elem_congr (P : ElemData → Bool) (g₁ g₂ : String → ElemData → ElemData)
    (hg : ∀ a e, P e = true → P (g₁ a e) = true)
    (heq : ∀ a e, P e = true → g₁ a e = g₂ a e) :
    ∀ (as : List String) (e : ElemData), P e = true →
      as.foldl (fun e a => g₁ a e) e = as.foldl (fun e a => g₂ a e) e := by
  intro as
  induction as with
  | nil => intro e _; rfl
  | cons a as ih =>
    intro e h
    simp only [List.foldl_cons]
    rw [← heq a e h]
    exact ih (g₁ a e) (hg a e h)

theorem foldl_forest_congr (P : ElemData → Bool) (g₁ g₂ : String → ElemData → ElemData)
    (hg : ∀ a e, P e = true → P (g₁ a e) = true)
    (heq : ∀ a e, P e = true → g₁ a e = g₂ a e) :
    ∀ (as : List String) (cs : DomForest), allForestB P cs = true →
      as.foldl (fun cs a => mapForest (g₁ a) cs) cs
        = as.foldl (fun cs a => mapForest (g₂ a) cs) cs := by
  intro as
  induction as with
  | nil => intro cs _; rfl
  | cons a as ih =>
    intro cs h
    simp only [List.foldl_cons]
    rw [← mapForest_congr_of_all P (g₁ a) (g₂ a) (heq a) cs h]
    exact ih (mapForest (g₁ a) cs) (mapForest_all P (g₁ a) (hg a) cs h)

/-- C2 (amended): on subtrees whose elements are neither INPUT nor
TEXTAREA and carry no placeholder, title or aria marker, the incremental
pass coincides with the full pass restricted to the subtree; outside
that fragment they differ (`translateElement` writes only text content,
also for INPUT/TEXTAREA, and ignores the placeholder, title and
aria-label markers). -/
theorem translateElement_content_text_only (attributes : List String) (pa ta : String)
    (tr : String → String) (t : DomTree)
    (h : allTreeB (okElem pa ta) t = true) :
    translateElement attributes tr t = translatePageOn attributes pa ta tr t := by
  rcases t with ⟨e, cs⟩
  have h' : okElem pa ta e = true ∧ allForestB (okElem pa ta) cs = true := by
    simpa [allTreeB, Bool.and_eq_true] using h
  have hg : ∀ a e, okElem pa ta e = true → okElem pa ta (contentUpd tr a e) = true :=
    fun a e he => by rw [contentUpd_ok]; exact he
  have heqf : ∀ a e, okElem pa ta e = true → contentUpd tr a e = contentTextUpd tr a e :=
    fun a e he => contentUpd_eq_text pa ta tr a e he
  have hT1 : allTreeB (okElem pa ta)
      (DomTree.node (attributes.foldl (fun e a => contentUpd tr a e) e)
        (attributes.foldl (fun cs a => mapForest (contentUpd tr a) cs) cs)) = true := by
    simp only [allTreeB, Bool.and_eq_true]
    exact ⟨foldl_elem_all (okElem pa ta) (contentUpd tr) hg attributes e h'.1,
      foldl_forest_all (okElem pa ta) (contentUpd tr) hg attributes cs h'.2⟩
  unfold translatePageOn
  rw [foldl_mapTree_node (contentUpd tr) attributes e cs,
    mapTree_id_of_all (okElem pa ta) (placeholderUpd tr pa)
      (fun e he => placeholderUpd_id pa ta tr e he) _ hT1,
    mapTree_id_of_all (okElem pa ta) (titleUpd tr ta)
      (fun e he => titleUpd_id pa ta tr e he) _ hT1,
    mapTree_id_of_all (okElem pa ta) (ariaUpd tr)
      (fun e he => ariaUpd_id pa ta tr e he) _ hT1,
    translateElement,
    foldl_elem_congr (okElem pa ta) (contentUpd tr) (contentTextUpd tr) hg heqf
      attributes e h'.1,
    foldl_forest_congr (okElem pa ta) (contentUpd tr) (contentTextUpd tr) hg heqf
      attributes cs h'.2]

/-- Witness for C2 (amended): on a DIV/SPAN subtree with only content
markers, the incremental pass gives exactly the restricted full pass. -/
theorem translateElement_content_text_only_witness :
    allTreeB (okElem "translate-placeholder" "translate-title") okTree = true
    ∧ translateElement ["translate", "data-translate"] navTr okTree
        = translatePageOn ["translate", "data-translate"] "translate-placeholder"
            "translate-title" navTr okTree :=
  ⟨by decide,
   translateElement_content_text_only ["translate", "data-translate"]
     "translate-placeholder" "translate-title" navTr okTree (by decide)⟩

/-- Counterexample to C2 as stated: on the subtree `ceTree` (an INPUT
with a content marker, whose child carries a placeholder marker) the
incremental pass writes the INPUT's text content instead of its value
and skips the child's placeholder, while the restricted full pass writes
the value and the placeholder; the two passes produce different
subtrees. -/
theorem translateElement_full_pass_counterexample :
    (rootData (translateElement ["translate", "data-translate"] navTr ceTree)).text = "Home"
    ∧ (rootData (translateElement ["translate", "data-translate"] navTr ceTree)).value = ""
    ∧ (rootData (translatePageOn ["translate", "data-translate"] "translate-placeholder"
        "translate-title" navTr ceTree)).text = ""
    ∧ (rootData (translatePageOn ["translate", "data-translate"] "translate-placeholder"
        "translate-title" navTr ceTree)).value = "Home"
    ∧ firstChildPlaceholder (translateElement ["translate", "data-translate"] navTr ceTree) = ""
    ∧ firstChildPlaceholder (translatePageOn ["translate", "data-translate"]
        "translate-placeholder" "translate-title" navTr ceTree) = "Home"
    ∧ translateElement ["translate", "data-translate"] navTr ceTree
        ≠ translatePageOn ["translate", "data-translate"] "translate-placeholder"
            "translate-title" navTr ceTree := by
  refine ⟨rfl, rfl, rfl, rfl, rfl, rfl, fun hEq => ?_⟩
  have hv := congrArg (fun t => (rootData t).value) hEq
  exact absurd hv (by decide)

/-- Witness for C10 at a concrete heap. -/
theorem getAvailableLanguages_fresh_copy_witness :
    (0 : Nat) < ([["en", "fr"]] : List (List String)).length
    ∧ (getAvailableLanguages [["en", "fr"]] 0).1 ≠ 0
    ∧ readArr (writeArr (getAvailableLanguages [["en", "fr"]] 0).2
          (getAvailableLanguages [["en", "fr"]] 0).1 ["de"]) 0 = readArr [["en", "fr"]] 0 :=
  ⟨by decide,
   (getAvailableLanguages_fresh_copy [["en", "fr"]] 0 (by decide)).1,
   (getAvailableLanguages_fresh_copy [["en", "fr"]] 0 (by decide)).2.2.1 ["de"]⟩
